import Mathlib

/-!
Shallow embedding of the msr_transfers repository's three scripts:

* `investigation_fhlmc_servicer_changes_2026-02-11.py` and
  `investigation_mlld_servicer_changes_2026-02-11.py` — the differencing
  reconciler (the two scripts are line-for-line identical in every part
  modelled here: sliding-window inner join on "Loan Identifier", filter to
  rows whose "Servicer Name" changed, group by (servicer_from, servicer_to),
  left-join seller/buyer totals, compute the four fraction columns, sort).
* `investigation_gnma_servicer_changes_2026-02-11.py` — the flagged-transfer
  reconciler (per-month: concat the llmon1/llmon2 frames, deduplicate on
  (Pool ID, loan_seq), parse the UPB string to dollars, group transfers by
  (Seller Issuer ID, Issuer ID), reconstruct seller books, fractions, sort).

Tables are embedded as lists of rows; polars nulls as `Option`; the Float64
columns as `ℚ`.  Polars aggregate sums skip nulls and return 0 on an
empty/all-null group, which `sumOpt` reproduces.  Division producing a
non-finite float (denominator exactly 0) is modelled as a missing value,
and a null denominator propagates to a null quotient, as in polars.
-/

/-- Sum of the present values of an optional-rational column: nulls are
skipped, and an empty or all-null column sums to 0, exactly as polars'
`Expr.sum` behaves on a Float64 column. -/
def sumOpt (l : List (Option ℚ)) : ℚ := (l.filterMap id).sum

/-- Guarded division used for the fraction columns: a missing denominator
gives a missing quotient (polars null propagation); a zero denominator is
modelled as a missing value (the quotient is not a finite number). -/
def divOpt (num : ℚ) (den : Option ℚ) : Option ℚ :=
  match den with
  | none => none
  | some d => if d = 0 then none else some (num / d)

/-- First-match lookup of a key in an association list; models a polars
left join against a frame keyed by its first column. -/
def lookupKey {κ β : Type} [DecidableEq κ] (k : κ) (l : List (κ × β)) : Option β :=
  (l.find? (fun p => decide (p.1 = k))).map Prod.snd

/-- The distinct group keys of a frame, in order of first appearance:
the keys produced by `group_by`. -/
def keysOf {α κ : Type} [DecidableEq κ] (key : α → κ) (l : List α) : List κ :=
  (l.map key).dedup

/-- `group_by(key).agg(len/count, sum)`: one row per distinct key holding
the group's row count and the null-skipping sum of `val` over the group. -/
def groupStats {α κ : Type} [DecidableEq κ] (key : α → κ) (val : α → Option ℚ)
    (l : List α) : List (κ × Nat × ℚ) :=
  (keysOf key l).map (fun k =>
    (k, ((l.filter (fun r => decide (key r = k))).length,
         sumOpt ((l.filter (fun r => decide (key r = k))).map val))))

/-! ## Differencing reconciler (FHLMC / MLLD scripts) -/

/-- One loan row of a monthly FHLMC/MLLD file restricted to the projected
columns `["Loan Identifier", "Servicer Name", "Current Investor Loan UPB"]`. -/
structure FRow where
  loanId : String
  servicer : String
  upb : Option ℚ
deriving DecidableEq

/-- A row of the inner join of two adjacent months on "Loan Identifier". -/
structure JRow where
  loanId : String
  servicerFrom : String
  upbFrom : Option ℚ
  servicerTo : String
  upbTo : Option ℚ
deriving DecidableEq

/-- `df_prev.join(df_curr, on="Loan Identifier", how="inner")`: every
matching pair of rows, tagged with both months' servicer and UPB. -/
def innerJoin (A B : List FRow) : List JRow :=
  A.flatMap (fun a =>
    (B.filter (fun b => decide (b.loanId = a.loanId))).map (fun b =>
      ⟨a.loanId, a.servicer, a.upb, b.servicer, b.upb⟩))

/-- `joined.filter(servicer_from != servicer_to)`: the loan-level transition
records of the differencing reconciler. -/
def changed (A B : List FRow) : List JRow :=
  (innerJoin A B).filter (fun j => decide (j.servicerFrom ≠ j.servicerTo))

/-- Per-servicer totals of month A: `df_prev.group_by("Servicer Name")`
with loan count and UPB sum (the seller-total denominators). The buyer
totals are the same computation over month B. -/
def servicerTotals (X : List FRow) : List (String × Nat × ℚ) :=
  groupStats FRow.servicer FRow.upb X

/-- One aggregate row of the differencing reconciler before the script's
final `drop` of the intermediate total columns. -/
structure FAggFull where
  servicerFrom : String
  servicerTo : String
  nLoans : Nat
  totalUpbFrom : ℚ
  totalUpb : ℚ
  month : Nat
  sellerTotal : Option (Nat × ℚ)
  buyerTotal : Option (Nat × ℚ)
  fracSellerN : Option ℚ
  fracSellerUpb : Option ℚ
  fracBuyerN : Option ℚ
  fracBuyerUpb : Option ℚ
deriving DecidableEq

/-- One output row of the differencing reconciler (after the `drop`). -/
structure FAgg where
  servicerFrom : String
  servicerTo : String
  nLoans : Nat
  totalUpb : ℚ
  month : Nat
  fracSellerN : Option ℚ
  fracSellerUpb : Option ℚ
  fracBuyerN : Option ℚ
  fracBuyerUpb : Option ℚ
deriving DecidableEq

/-- One differencing step: group the changed rows by (servicer_from,
servicer_to); per group take the loan count and the two UPB sums; left-join
the seller totals of month A and the buyer totals of month B; compute the
four fraction columns with guarded division.  (The script's `n_changed > 0`
guard is redundant here: grouping an empty frame yields no rows.) -/
def fhlmcStepFull (A B : List FRow) (month : Nat) : List FAggFull :=
  let st := servicerTotals A
  let bt := servicerTotals B
  let ch := changed A B
  (keysOf (fun j => (j.servicerFrom, j.servicerTo)) ch).map (fun k =>
    let rows := ch.filter (fun j => decide ((j.servicerFrom, j.servicerTo) = k))
    let s := lookupKey k.1 st
    let b := lookupKey k.2 bt
    { servicerFrom := k.1
      servicerTo := k.2
      nLoans := rows.length
      totalUpbFrom := sumOpt (rows.map JRow.upbFrom)
      totalUpb := sumOpt (rows.map JRow.upbTo)
      month := month
      sellerTotal := s
      buyerTotal := b
      fracSellerN := divOpt (rows.length : ℚ) (s.map (fun p => (p.1 : ℚ)))
      fracSellerUpb := divOpt (sumOpt (rows.map JRow.upbFrom)) (s.map Prod.snd)
      fracBuyerN := divOpt (rows.length : ℚ) (b.map (fun p => (p.1 : ℚ)))
      fracBuyerUpb := divOpt (sumOpt (rows.map JRow.upbTo)) (b.map Prod.snd) })

/-- The script's final `drop` of the joined total columns. -/
def dropTotals (r : FAggFull) : FAgg :=
  { servicerFrom := r.servicerFrom
    servicerTo := r.servicerTo
    nLoans := r.nLoans
    totalUpb := r.totalUpb
    month := r.month
    fracSellerN := r.fracSellerN
    fracSellerUpb := r.fracSellerUpb
    fracBuyerN := r.fracBuyerN
    fracBuyerUpb := r.fracBuyerUpb }

/-- One differencing step's appended output rows. -/
def fhlmcStep (A B : List FRow) (month : Nat) : List FAgg :=
  (fhlmcStepFull A B month).map dropTotals

/-- The final sort of both scripts:
`sort(["transition_month", "n_loans"], descending=[False, True])` on the
concatenated per-step results.  Period tokens are YYYYMM strings whose
lexicographic order coincides with numeric order, so they are embedded as
naturals. -/
def sortLE (km kn : α → Nat) (a b : α) : Bool :=
  decide (km a < km b) || (decide (km a = km b) && decide (kn b ≤ kn a))

/-- Canonical output order as a proposition: month non-decreasing, loan
count non-increasing within a month. -/
def SortOrd (km kn : α → Nat) (a b : α) : Prop :=
  km a ≤ km b ∧ (km a = km b → kn b ≤ kn a)

/-- Sort the combined differencing output rows. -/
def sortCombinedF (l : List FAgg) : List FAgg :=
  l.mergeSort (sortLE FAgg.month FAgg.nLoans)

/-- The whole differencing run over a chronological list of monthly inputs,
each a period token plus `some` loaded frame, or `none` when the month's
file is unreadable (`pl.scan_parquet(...).collect()` raising).  The run
aborts on the first unreadable month before any output is produced; the
empty file list aborts as well (`files[0]` raising).  Otherwise every
adjacent pair is compared and the sorted concatenation is the CSV output
(an empty row list means the script returns without writing a file, a
benign condition). -/
def seqFrames : List (Nat × Option (List FRow)) → Option (List (Nat × List FRow))
  | [] => some []
  | (_, none) :: _ => none
  | (m, some f) :: rest => (seqFrames rest).map (fun r => (m, f) :: r)

def fhlmcRun (inputs : List (Nat × Option (List FRow))) : Except String (List FAgg) :=
  if inputs.isEmpty then Except.error "no monthly files found" else
  match seqFrames inputs with
  | none => Except.error "unreadable period source"
  | some months =>
      Except.ok (sortCombinedF
        ((months.zip months.tail).flatMap (fun p => fhlmcStep p.1.2 p.2.2 p.2.1)))

/-! ## Flagged-transfer reconciler (GNMA script) -/

/-- One loan row of a monthly GNMA llmon1/llmon2 L file restricted to the
selected columns: "Pool ID", the loan sequence number (aliased `loan_seq`),
"Issuer ID ...", "Seller Issuer ID" (null unless a transfer occurred this
month), and the UPB, a numeric string in cents. -/
structure GRow where
  pool : String
  loanSeq : String
  issuer : String
  seller : Option String
  upb : String
deriving DecidableEq

/-- The deduplication key of the GNMA month merge: (Pool ID, loan_seq). -/
def dedupKey (r : GRow) : String × String := (r.pool, r.loanSeq)

/-- `str.strip_chars()` with no argument: strip leading and trailing
whitespace. -/
def stripChars (s : String) : String :=
  String.mk (((s.data.dropWhile Char.isWhitespace).reverse.dropWhile
    Char.isWhitespace).reverse)

/-- Numeric value of a digit string. -/
def digitsVal (cs : List Char) : Nat :=
  cs.foldl (fun n c => 10 * n + (c.toNat - 48)) 0

/-- Split a character list at every '.'. -/
def splitDot : List Char → List Char → List (List Char)
  | [], acc => [acc.reverse]
  | c :: rest, acc =>
      if c = '.' then acc.reverse :: splitDot rest []
      else splitDot rest (c :: acc)

/-- Models polars' string-to-Float64 cast (`cast(pl.Float64, strict=False)`)
on the decimal numeric strings the UPB column holds: an optional sign,
digits, and an optional fractional part; anything else is unparseable and
becomes a missing value. -/
def parseDecimal (s : String) : Option ℚ :=
  let sb : Bool × List Char :=
    match s.data with
    | '-' :: rest => (true, rest)
    | '+' :: rest => (false, rest)
    | cs => (false, cs)
  let mag : Option ℚ :=
    match splitDot sb.2 [] with
    | [a] =>
        if 0 < a.length && a.all Char.isDigit
        then some ((digitsVal a : ℚ)) else none
    | [a, b] =>
        if (0 < a.length || 0 < b.length) && a.all Char.isDigit && b.all Char.isDigit
        then some ((digitsVal a : ℚ) + (digitsVal b : ℚ) / ((10 : ℚ) ^ b.length))
        else none
    | _ => none
  mag.map (fun q => if sb.1 then -q else q)

/-- The script's UPB parse: strip the string, replace an (empty) "" with
null, cast to Float64 non-strictly, divide by 100 to get dollars.  An empty
or unparseable balance is a missing value, never zero. -/
def parseUpb (s : String) : Option ℚ :=
  let t := stripChars s
  if t = "" then none else (parseDecimal t).map (fun q => q / 100)

/-- The `upb_dollars` column added by `with_columns`. -/
def upbDollars (r : GRow) : Option ℚ := parseUpb r.upb

/-- `df_month.group_by(COL_ISSUER).agg(len, sum(upb_dollars))`: the
current-month totals per issuer (buyer totals, and the seller's remaining
book). -/
def gnmaServicerTotals (df : List GRow) : List (String × Nat × ℚ) :=
  groupStats GRow.issuer upbDollars df

/-- The transfer filter: "Seller Issuer ID" non-null and non-empty after
stripping. -/
def isTransfer (r : GRow) : Bool :=
  match r.seller with
  | some t => decide (stripChars t ≠ "")
  | none => false

def gnmaTransfers (df : List GRow) : List GRow := df.filter isTransfer

/-- The raw "Seller Issuer ID" string of a row; only ever read on transfer
rows, where the field is present. -/
def sellerOf (r : GRow) : String := r.seller.getD ""

/-- `transfers.group_by(COL_SELLER).agg(len, sum)`: per-seller transferred
count and balance. -/
def sellerTransferred (df : List GRow) : List (String × Nat × ℚ) :=
  groupStats sellerOf upbDollars (gnmaTransfers df)

/-- The seller-book reconstruction: for each transferring seller, the
transferred totals plus (left join on the current-month issuer totals with
`fill_null(0)`) the seller's remaining book. -/
def sellerBook (df : List GRow) : List (String × Nat × ℚ) :=
  (sellerTransferred df).map (fun p =>
    let rem := (lookupKey p.1 (gnmaServicerTotals df)).getD (0, 0)
    (p.1, (p.2.1 + rem.1, p.2.2 + rem.2)))

/-- Issuer-ID-to-name resolution with the script's deterministic fallback
label for unknown identifiers. -/
def issuerName (nameMap : List (String × String)) (iid : String) : String :=
  (lookupKey iid nameMap).getD ("ID:" ++ iid)

/-- One aggregate row of the flagged-transfer reconciler, with the joined
total columns retained (the script's final `select` projects them away). -/
structure GAggFull where
  sellerId : String
  issuerId : String
  servicerFrom : String
  servicerTo : String
  month : Nat
  nLoans : Nat
  totalUpb : ℚ
  buyerTotal : Option (Nat × ℚ)
  sellerTotal : Option (Nat × ℚ)
  fracSellerN : Option ℚ
  fracSellerUpb : Option ℚ
  fracBuyerN : Option ℚ
  fracBuyerUpb : Option ℚ
deriving DecidableEq

/-- One output row of the flagged-transfer reconciler (after the `select`). -/
structure GAgg where
  sellerId : String
  servicerFrom : String
  issuerId : String
  servicerTo : String
  month : Nat
  nLoans : Nat
  totalUpb : ℚ
  fracSellerN : Option ℚ
  fracSellerUpb : Option ℚ
  fracBuyerN : Option ℚ
  fracBuyerUpb : Option ℚ
deriving DecidableEq

/-- One aggregate row of a GNMA month for one (Seller Issuer ID, Issuer
ID) group: the group's loan count and UPB sum, left-joined buyer totals
(current issuer totals) and reconstructed seller book, the four fractions,
and resolved names.  (The script's `n_transfers > 0` guard is redundant in
this embedding: grouping an empty frame yields no rows.) -/
def gnmaRowOf (nameMap : List (String × String)) (month : Nat)
    (df : List GRow) (k : String × String) : GAggFull :=
    let rows := (gnmaTransfers df).filter
      (fun r => decide ((sellerOf r, r.issuer) = k))
    let b := lookupKey k.2 (gnmaServicerTotals df)
    let s := lookupKey k.1 (sellerBook df)
    { sellerId := k.1
      issuerId := k.2
      servicerFrom := issuerName nameMap k.1
      servicerTo := issuerName nameMap k.2
      month := month
      nLoans := rows.length
      totalUpb := sumOpt (rows.map upbDollars)
      buyerTotal := b
      sellerTotal := s
      fracSellerN := divOpt (rows.length : ℚ) (s.map (fun p => (p.1 : ℚ)))
      fracSellerUpb := divOpt (sumOpt (rows.map upbDollars)) (s.map Prod.snd)
      fracBuyerN := divOpt (rows.length : ℚ) (b.map (fun p => (p.1 : ℚ)))
      fracBuyerUpb := divOpt (sumOpt (rows.map upbDollars)) (b.map Prod.snd) }

/-- One GNMA month's pre-`select` aggregate rows: one `gnmaRowOf` row per
distinct (Seller Issuer ID, Issuer ID) key of the transfer rows. -/
def gnmaMonthFull (nameMap : List (String × String)) (month : Nat)
    (df : List GRow) : List GAggFull :=
  (keysOf (fun r => (sellerOf r, r.issuer)) (gnmaTransfers df)).map
    (gnmaRowOf nameMap month df)

/-- The script's final `select` projection of an aggregate row. -/
def selectG (r : GAggFull) : GAgg :=
  { sellerId := r.sellerId
    servicerFrom := r.servicerFrom
    issuerId := r.issuerId
    servicerTo := r.servicerTo
    month := r.month
    nLoans := r.nLoans
    totalUpb := r.totalUpb
    fracSellerN := r.fracSellerN
    fracSellerUpb := r.fracSellerUpb
    fracBuyerN := r.fracBuyerN
    fracBuyerUpb := r.fracBuyerUpb }

/-- One GNMA month's appended output rows. -/
def gnmaMonth (nameMap : List (String × String)) (month : Nat)
    (df : List GRow) : List GAgg :=
  (gnmaMonthFull nameMap month df).map selectG

/-- `pl.concat(month_frames).unique(subset=[COL_POOL, COL_LOAN])` with
polars' default `keep="any"` and `maintain_order=False`: the output keeps
some subset of the input rows — one per distinct (Pool ID, loan_seq) key,
drawn from the rows carrying that key, in an unspecified order.  Modelled
as a relation because which duplicate survives, and the row order, are
unspecified. -/
def dedupRel (inp out : List GRow) : Prop :=
  out.Subperm inp ∧ (out.map dedupKey).Nodup ∧
    ∀ r ∈ inp, dedupKey r ∈ out.map dedupKey

/-- A valid complete run of the GNMA script on per-month concatenated
inputs: some admissible deduplication of each month's frame, the months'
aggregate rows concatenated, and the result sorted by (transition_month
ascending, n_loans descending) — `sort` with `maintain_order=False` fixes
only the ordering constraint, so any sorted permutation is admissible. -/
def gnmaRunRel (nameMap : List (String × String))
    (inputs : List (Nat × List GRow)) (out : List GAgg) : Prop :=
  ∃ chosen : List (Nat × List GRow),
    List.Forall₂ (fun a b => a.1 = b.1 ∧ dedupRel a.2 b.2) inputs chosen ∧
    out.Perm (chosen.flatMap (fun p => gnmaMonth nameMap p.1 p.2)) ∧
    out.Pairwise (SortOrd GAgg.month GAgg.nLoans)

/-- The normalization-fraction invariant for one fraction column paired
with its denominator column: defined and within [0, 1] whenever the
denominator is present and positive; missing whenever the denominator is
missing or zero. -/
def FracInv (frac den : Option ℚ) : Prop :=
  (∀ d, den = some d → 0 < d → ∃ q, frac = some q ∧ 0 ≤ q ∧ q ≤ 1) ∧
  (den = none → frac = none) ∧ (den = some 0 → frac = none)

/-! ## Concrete frames used as witnesses and counterexamples -/

/-- A one-loan GNMA month: issuer "A" currently services the loan, which
was transferred away from "X" this month; UPB string "100" cents. -/
def gdfW : List GRow := [⟨"P", "L", "A", some "X", "100"⟩]

/-- A one-loan GNMA month whose non-empty Seller Issuer ID equals the
current Issuer ID. -/
def gdfSelf : List GRow := [⟨"P1", "L1", "0123", some "0123", "100"⟩]

/-- Two GNMA rows sharing a (Pool ID, loan_seq) key but carrying different
payloads, as when the llmon1 and llmon2 files overlap for one month. -/
def gRow1 : GRow := ⟨"P", "L", "A", some "X", "100"⟩

def gRow2 : GRow := ⟨"P", "L", "B", some "Y", "200"⟩

/-- The concatenation of the two physical sources for one month:
the llmon1 row first, the llmon2 row (the later source) second. -/
def gPair : List GRow := [gRow1, gRow2]

/-- A single-month GNMA run input whose concatenated sources hold the
duplicate-key pair `gPair`. -/
def c6inputs : List (Nat × List GRow) := [(201504, gPair)]

/-- The aggregate row the month produces when deduplication keeps `gRow1`. -/
def c6rowX : GAgg :=
  ⟨"X", "ID:X", "A", "ID:A", 201504, 1, 1, some 1, some 1, some 1, some 1⟩

/-- The aggregate row the month produces when deduplication keeps `gRow2`. -/
def c6rowY : GAgg :=
  ⟨"Y", "ID:Y", "B", "ID:B", 201504, 1, 2, some 1, some 1, some 1, some 1⟩

/-- Two one-loan FHLMC months between which loan "L1" moves from servicer
"S1" to "S2". -/
def fdfA : List FRow := [⟨"L1", "S1", some 5⟩]

def fdfB : List FRow := [⟨"L1", "S2", some 4⟩]

/-- Four FHLMC monthly inputs, all readable, the third and fourth loading
as empty (zero-row) frames. -/
def c7inputs : List (Nat × Option (List FRow)) :=
  [(202001, some fdfA), (202002, some fdfB), (202003, some []), (202004, some [])]

/-- The single output row the run over `c7inputs` produces. -/
def c7row : FAgg := ⟨"S1", "S2", 1, 4, 202002, some 1, some 1, some 1, some 1⟩

/-- The single pre-`drop` aggregate row of the step from `fdfA` to `fdfB`. -/
def c9row : FAggFull :=
  ⟨"S1", "S2", 1, 5, 4, 202002, some (1, 5), some (1, 4),
   some 1, some 1, some 1, some 1⟩

/-! ## Basic lemmas about the embedding's primitives -/

lemma sumOpt_nil : sumOpt [] = 0 := rfl

lemma sumOpt_cons (x : Option ℚ) (l : List (Option ℚ)) :
    sumOpt (x :: l) = x.getD 0 + sumOpt l := by
  cases x <;> simp [sumOpt, List.filterMap_cons]

lemma sumOpt_append (l₁ l₂ : List (Option ℚ)) :
    sumOpt (l₁ ++ l₂) = sumOpt l₁ + sumOpt l₂ := by
  simp [sumOpt, List.filterMap_append]

lemma sumOpt_perm {l₁ l₂ : List (Option ℚ)} (h : l₁.Perm l₂) :
    sumOpt l₁ = sumOpt l₂ :=
  (h.filterMap id).sum_eq

lemma sumOpt_nonneg {l : List (Option ℚ)} (h : ∀ x ∈ l, 0 ≤ x.getD 0) :
    0 ≤ sumOpt l := by
  induction l with
  | nil => simp [sumOpt_nil]
  | cons x l ih =>
      rw [sumOpt_cons]
      have hx := h x (List.mem_cons_self x l)
      have hl := ih (fun y hy => h y (List.mem_cons_of_mem x hy))
      linarith

lemma sumOpt_le_of_sublist {l₁ l₂ : List (Option ℚ)} (h : l₁.Sublist l₂)
    (h0 : ∀ x ∈ l₂, 0 ≤ x.getD 0) : sumOpt l₁ ≤ sumOpt l₂ := by
  induction h with
  | slnil => simp [sumOpt_nil]
  | cons x hs ih =>
      rename_i u v
      rw [sumOpt_cons]
      have hx := h0 x (List.mem_cons_self x v)
      have := ih (fun y hy => h0 y (List.mem_cons_of_mem x hy))
      linarith
  | cons₂ x hs ih =>
      rename_i u v
      rw [sumOpt_cons, sumOpt_cons]
      have := ih (fun y hy => h0 y (List.mem_cons_of_mem x hy))
      linarith

lemma sumOpt_le_of_subperm {l₁ l₂ : List (Option ℚ)} (h : l₁.Subperm l₂)
    (h0 : ∀ x ∈ l₂, 0 ≤ x.getD 0) : sumOpt l₁ ≤ sumOpt l₂ := by
  obtain ⟨t, hperm, hsub⟩ := h
  calc sumOpt l₁ = sumOpt t := (sumOpt_perm hperm).symm
    _ ≤ sumOpt l₂ := sumOpt_le_of_sublist hsub h0

lemma find?_decide_mem {α : Type} [DecidableEq α] (k : α) (l : List α) :
    l.find? (fun x => decide (x = k)) = if k ∈ l then some k else none := by
  induction l with
  | nil => simp
  | cons a l ih =>
      by_cases h : a = k
      · subst h
        rw [List.find?_cons_of_pos _ (by simp), if_pos (List.mem_cons_self a l)]
      · rw [List.find?_cons_of_neg _ (by simp [h]), ih]
        by_cases hm : k ∈ l
        · rw [if_pos hm, if_pos (List.mem_cons_of_mem a hm)]
        · rw [if_neg hm, if_neg (by simp [List.mem_cons, Ne.symm h, hm])]

lemma find?_groupStats {α κ : Type} [DecidableEq κ] (key : α → κ)
    (val : α → Option ℚ) (l : List α) (k : κ) :
    (groupStats key val l).find? (fun p => decide (p.1 = k)) =
      if k ∈ l.map key then
        some (k, ((l.filter (fun r => decide (key r = k))).length,
                  sumOpt ((l.filter (fun r => decide (key r = k))).map val)))
      else none := by
  unfold groupStats keysOf
  rw [List.find?_map]
  have hcomp :
      ((fun p : κ × Nat × ℚ => decide (p.1 = k)) ∘
        (fun k' => (k', ((l.filter (fun r => decide (key r = k'))).length,
                  sumOpt ((l.filter (fun r => decide (key r = k'))).map val)))))
        = fun k' => decide (k' = k) := rfl
  rw [hcomp, find?_decide_mem]
  by_cases hm : k ∈ (l.map key).dedup
  · rw [if_pos hm, if_pos (List.mem_dedup.mp hm)]
    rfl
  · rw [if_neg hm, if_neg (fun hc => hm (List.mem_dedup.mpr hc))]
    rfl

lemma lookupKey_groupStats {α κ : Type} [DecidableEq κ] (key : α → κ)
    (val : α → Option ℚ) (l : List α) (k : κ) :
    lookupKey k (groupStats key val l) =
      if k ∈ l.map key then
        some ((l.filter (fun r => decide (key r = k))).length,
              sumOpt ((l.filter (fun r => decide (key r = k))).map val))
      else none := by
  unfold lookupKey
  rw [find?_groupStats]
  by_cases hm : k ∈ l.map key <;> simp [hm]

lemma filter_eq_nil_of_not_mem_map {α κ : Type} [DecidableEq κ]
    (key : α → κ) (l : List α) (k : κ) (h : k ∉ l.map key) :
    l.filter (fun r => decide (key r = k)) = [] := by
  rw [List.filter_eq_nil_iff]
  intro a ha
  simp only [decide_eq_true_eq]
  intro hk
  exact h (List.mem_map.mpr ⟨a, ha, hk⟩)

lemma lookupKey_map_fst {κ β γ : Type} [DecidableEq κ] (k : κ)
    (g : κ × β → γ) (l : List (κ × β)) :
    lookupKey k (l.map (fun p => (p.1, g p))) =
      (l.find? (fun p => decide (p.1 = k))).map (fun p => g p) := by
  unfold lookupKey
  rw [List.find?_map]
  have hc : ((fun p : κ × γ => decide (p.1 = k)) ∘ (fun p : κ × β => (p.1, g p)))
      = fun p : κ × β => decide (p.1 = k) := rfl
  rw [hc, Option.map_map]
  rfl

/-- The seller-book entry of any seller: the transferred totals plus the
currently-held totals (which are 0 exactly when the identity holds no
current loans, matching the left join's `fill_null(0)`). -/
lemma lookupKey_sellerBook (df : List GRow) (s : String) :
    lookupKey s (sellerBook df) =
      if s ∈ (gnmaTransfers df).map sellerOf then
        some ((((gnmaTransfers df).filter (fun r => decide (sellerOf r = s))).length
                 + (df.filter (fun r => decide (r.issuer = s))).length,
               sumOpt (((gnmaTransfers df).filter (fun r => decide (sellerOf r = s))).map upbDollars)
                 + sumOpt ((df.filter (fun r => decide (r.issuer = s))).map upbDollars)))
      else none := by
  have h1 : sellerBook df = (sellerTransferred df).map
      (fun p => (p.1, ((fun q : String × Nat × ℚ =>
        let rem := (lookupKey q.1 (gnmaServicerTotals df)).getD (0, 0)
        (q.2.1 + rem.1, q.2.2 + rem.2)) p))) := rfl
  rw [h1, lookupKey_map_fst]
  unfold sellerTransferred
  rw [find?_groupStats]
  by_cases hm : s ∈ (gnmaTransfers df).map sellerOf
  · rw [if_pos hm, if_pos hm]
    unfold gnmaServicerTotals
    rw [Option.map_some', lookupKey_groupStats]
    by_cases hi : s ∈ df.map GRow.issuer
    · rw [if_pos hi]
      simp
    · rw [if_neg hi]
      have hnil := filter_eq_nil_of_not_mem_map GRow.issuer df s hi
      simp [hnil, sumOpt_nil]
  · rw [if_neg hm, if_neg hm]
    rfl

/-! ## C2 — seller-book reconstruction -/

/-- C2: for every seller identity appearing in a period's transfer rows,
the seller-total denominators (count and balance) used for that period's
fractions equal the number/balance of loans still held this period under
that identity (0 when the identity holds no current loans) plus the
number/balance of loans transferred away from it this period. -/
theorem C2_seller_book_reconstruction (df : List GRow) (s : String)
    (hs : s ∈ (gnmaTransfers df).map sellerOf) :
    lookupKey s (sellerBook df) =
      some (((df.filter (fun r => decide (r.issuer = s))).length
               + ((gnmaTransfers df).filter (fun r => decide (sellerOf r = s))).length,
             sumOpt ((df.filter (fun r => decide (r.issuer = s))).map upbDollars)
               + sumOpt (((gnmaTransfers df).filter (fun r => decide (sellerOf r = s))).map upbDollars))) := by
  rw [lookupKey_sellerBook, if_pos hs]
  apply congrArg some
  apply Prod.ext
  · exact Nat.add_comm _ _
  · exact add_comm _ _

/-- Witness for C2 at the concrete one-loan month `gdfW`: seller "X" holds
no current loans (held totals 0) and transferred one loan of $1 away. -/
theorem C2_seller_book_witness :
    "X" ∈ (gnmaTransfers gdfW).map sellerOf ∧
    lookupKey "X" (sellerBook gdfW) =
      some (((gdfW.filter (fun r => decide (r.issuer = "X"))).length
               + ((gnmaTransfers gdfW).filter (fun r => decide (sellerOf r = "X"))).length,
             sumOpt ((gdfW.filter (fun r => decide (r.issuer = "X"))).map upbDollars)
               + sumOpt (((gnmaTransfers gdfW).filter (fun r => decide (sellerOf r = "X"))).map upbDollars))) :=
  ⟨by decide, C2_seller_book_reconstruction gdfW "X" (by decide)⟩

/-! ## C10 — the flagged reconciler keeps self-transfers -/

/-- C10: the flagged-transfer reconciler does not require the prior
servicer to differ from the current issuer: on a month whose single loan
has Seller Issuer ID equal to its Issuer ID (both "0123"), the output
contains an aggregate row whose origin identity equals its destination
identity. -/
theorem C10_self_transfer_row :
    (∃ r ∈ gdfSelf, r.seller = some r.issuer ∧ stripChars (r.seller.getD "") ≠ "") ∧
    (gnmaMonth [] 201504 gdfSelf).map (fun r => (r.sellerId, r.issuerId)) =
      [("0123", "0123")] := by
  constructor
  · exact ⟨⟨"P1", "L1", "0123", some "0123", "100"⟩, by decide, by decide, by decide⟩
  · rfl

/-! ## C5 — balance parsing and missing-value handling -/

/-- C5: an empty-after-stripping or unparseable balance string parses to a
missing value, never to zero (a parsed zero can only come from an actual
zero numeral), and missing balances drop out of every sum aggregate — both
in general and specifically in the servicer totals and the per-transition
sums of the flagged-transfer reconciler. -/
theorem C5_balance_parsing :
    (∀ s : String, stripChars s = "" → parseUpb s = none) ∧
    (∀ s : String, parseDecimal (stripChars s) = none → parseUpb s = none) ∧
    (∀ s : String, parseUpb s = some 0 → parseDecimal (stripChars s) = some 0) ∧
    (∀ l₁ l₂ : List (Option ℚ), sumOpt (l₁ ++ none :: l₂) = sumOpt (l₁ ++ l₂)) ∧
    (∀ (df : List GRow) (r : GRow) (k : String), upbDollars r = none →
       sumOpt (((r :: df).filter (fun x => decide (x.issuer = k))).map upbDollars)
         = sumOpt ((df.filter (fun x => decide (x.issuer = k))).map upbDollars)) ∧
    (∀ (df : List GRow) (r : GRow) (k : String × String), upbDollars r = none →
       sumOpt (((gnmaTransfers (r :: df)).filter
           (fun x => decide ((sellerOf x, x.issuer) = k))).map upbDollars)
         = sumOpt (((gnmaTransfers df).filter
           (fun x => decide ((sellerOf x, x.issuer) = k))).map upbDollars)) := by
  refine ⟨?_, ?_, ?_, ?_, ?_, ?_⟩
  · intro s h
    simp [parseUpb, h]
  · intro s h
    by_cases he : stripChars s = "" <;> simp [parseUpb, he, h]
  · intro s h
    unfold parseUpb at h
    by_cases he : stripChars s = ""
    · simp [he] at h
    · simp only [he, if_false] at h
      obtain ⟨q, hq, hq0⟩ := Option.map_eq_some'.mp h
      have : q = 0 := by
        have h100 : (100 : ℚ) ≠ 0 := by norm_num
        field_simp at hq0
        exact hq0
      rw [hq, this]
  · intro l₁ l₂
    simp [sumOpt_append, sumOpt_cons]
  · intro df r k hr
    by_cases h : r.issuer = k
    · simp [List.filter_cons, h, sumOpt_cons, hr]
    · simp [List.filter_cons, h]
  · intro df r k hr
    unfold gnmaTransfers
    by_cases ht : isTransfer r
    · rw [List.filter_cons_of_pos ht]
      by_cases h : (sellerOf r, r.issuer) = k
      · rw [List.filter_cons_of_pos (by simp [h]), List.map_cons, sumOpt_cons, hr]
        simp
      · rw [List.filter_cons_of_neg (by simp [h])]
    · rw [List.filter_cons_of_neg (by simp [ht])]

/-- Witness for C5 at concrete inputs: "  " (whitespace only) and "x7"
(unparseable) parse to missing, and a missing balance drops out of a
concrete servicer-total sum. -/
theorem C5_balance_parsing_witness :
    parseUpb "  " = none ∧ parseUpb "x7" = none ∧
    sumOpt ([some 2] ++ none :: [some 3]) = sumOpt ([some 2] ++ [some 3]) ∧
    sumOpt (((⟨"P", "L", "A", none, "zz"⟩ :: gdfW).filter
        (fun x => decide (x.issuer = "A"))).map upbDollars)
      = sumOpt ((gdfW.filter (fun x => decide (x.issuer = "A"))).map upbDollars) :=
  ⟨C5_balance_parsing.1 "  " (by with_unfolding_all rfl),
   C5_balance_parsing.2.1 "x7" (by with_unfolding_all rfl),
   C5_balance_parsing.2.2.2.1 [some 2] [some 3],
   C5_balance_parsing.2.2.2.2.1 gdfW ⟨"P", "L", "A", none, "zz"⟩ "A"
     (by with_unfolding_all rfl)⟩

/-! ## C7 — fatality of bad period sources -/

lemma seqFrames_eq_none {inputs : List (Nat × Option (List FRow))}
    (h : ∃ p ∈ inputs, p.2 = none) : seqFrames inputs = none := by
  induction inputs with
  | nil => simp at h
  | cons hd rest ih =>
      obtain ⟨m, o⟩ := hd
      cases o with
      | none => rfl
      | some f =>
          obtain ⟨p, hp, hp2⟩ := h
          rcases List.mem_cons.mp hp with h1 | h1
          · rw [h1] at hp2
            simp at hp2
          · rw [show seqFrames ((m, some f) :: rest)
                  = (seqFrames rest).map (fun r => (m, f) :: r) from rfl,
                ih ⟨p, h1, hp2⟩]
            rfl

lemma seqFrames_eq_some {inputs : List (Nat × Option (List FRow))}
    (h : ∀ p ∈ inputs, p.2 ≠ none) : ∃ ms, seqFrames inputs = some ms := by
  induction inputs with
  | nil => exact ⟨[], rfl⟩
  | cons hd rest ih =>
      obtain ⟨m, o⟩ := hd
      cases o with
      | none => exact absurd rfl (h (m, none) (List.mem_cons_self _ _))
      | some f =>
          obtain ⟨ms, hms⟩ := ih (fun p hp => h p (List.mem_cons_of_mem _ hp))
          refine ⟨(m, f) :: ms, ?_⟩
          rw [show seqFrames ((m, some f) :: rest)
                = (seqFrames rest).map (fun r => (m, f) :: r) from rfl, hms]
          rfl

/-- C7 counterexample: on `c7inputs` — four readable monthly sources, the
third and fourth of which are empty (zero-row) frames — the run completes
with `Except.ok` and produces one output row.  The claim that an empty
required period source makes the run abort with a fatal error before
producing output is therefore false: the empty periods are silently
processed, contributing no transitions. -/
theorem C7_empty_period_not_fatal_cex :
    (202003, some ([] : List FRow)) ∈ c7inputs ∧
    fhlmcRun c7inputs = Except.ok [c7row] := by
  constructor
  · exact List.mem_cons.mpr (Or.inr (List.mem_cons.mpr (Or.inr
      (List.mem_cons.mpr (Or.inl rfl)))))
  · with_unfolding_all rfl

/-- C7 amended: an unreadable period source aborts the whole run with a
fatal error (as does an empty file list); when every period source is
readable — even if some load as empty frames — the run completes and
returns output. -/
theorem C7_unreadable_fatal :
    (∀ inputs : List (Nat × Option (List FRow)), (∃ p ∈ inputs, p.2 = none) →
       fhlmcRun inputs = Except.error "unreadable period source") ∧
    (∀ inputs : List (Nat × Option (List FRow)), inputs ≠ [] →
       (∀ p ∈ inputs, p.2 ≠ none) → ∃ out, fhlmcRun inputs = Except.ok out) := by
  constructor
  · intro inputs h
    have hne : inputs ≠ [] := by
      rintro rfl
      simp at h
    unfold fhlmcRun
    rw [if_neg (by simpa using hne), seqFrames_eq_none h]
  · intro inputs hne hall
    obtain ⟨ms, hms⟩ := seqFrames_eq_some hall
    refine ⟨sortCombinedF ((ms.zip ms.tail).flatMap
      (fun p => fhlmcStep p.1.2 p.2.2 p.2.1)), ?_⟩
    unfold fhlmcRun
    rw [if_neg (by simpa using hne), hms]

/-- Witness for C7's amended theorem: a single unreadable month aborts;
`c7inputs` (all readable) completes. -/
theorem C7_unreadable_fatal_witness :
    fhlmcRun [(201906, (none : Option (List FRow)))]
        = Except.error "unreadable period source" ∧
    ∃ out, fhlmcRun c7inputs = Except.ok out :=
  ⟨C7_unreadable_fatal.1 [(201906, none)]
      ⟨(201906, none), List.mem_cons_self _ _, rfl⟩,
   C7_unreadable_fatal.2 c7inputs (by simp [c7inputs])
      (by
        intro p hp
        have hp4 : p = (202001, some fdfA) ∨ p = (202002, some fdfB) ∨
            p = (202003, some []) ∨ p = (202004, some []) := by
          simpa [c7inputs] using hp
        rcases hp4 with h | h | h | h <;> subst h <;> simp)⟩

/-! ## Membership structure of the differencing reconciler -/

lemma mem_innerJoin {A B : List FRow} {j : JRow} :
    j ∈ innerJoin A B ↔ ∃ a ∈ A, ∃ b ∈ B, b.loanId = a.loanId ∧
      j = ⟨a.loanId, a.servicer, a.upb, b.servicer, b.upb⟩ := by
  unfold innerJoin
  simp only [List.mem_flatMap, List.mem_map, List.mem_filter, decide_eq_true_eq]
  constructor
  · rintro ⟨a, ha, b, ⟨hb, hid⟩, rfl⟩
    exact ⟨a, ha, b, hb, hid, rfl⟩
  · rintro ⟨a, ha, b, hb, hid, rfl⟩
    exact ⟨a, ha, b, ⟨hb, hid⟩, rfl⟩

lemma mem_changed {A B : List FRow} {j : JRow} :
    j ∈ changed A B ↔ ∃ a ∈ A, ∃ b ∈ B, b.loanId = a.loanId ∧
      a.servicer ≠ b.servicer ∧
      j = ⟨a.loanId, a.servicer, a.upb, b.servicer, b.upb⟩ := by
  unfold changed
  rw [List.mem_filter]
  constructor
  · rintro ⟨hj, hne⟩
    obtain ⟨a, ha, b, hb, hid, rfl⟩ := mem_innerJoin.mp hj
    exact ⟨a, ha, b, hb, hid, by simpa using hne, rfl⟩
  · rintro ⟨a, ha, b, hb, hid, hne, rfl⟩
    exact ⟨mem_innerJoin.mpr ⟨a, ha, b, hb, hid, rfl⟩, by simpa using hne⟩

lemma fhlmcStepFull_fields {A B : List FRow} {m : Nat} {row : FAggFull}
    (hr : row ∈ fhlmcStepFull A B m) :
    ∃ k, k ∈ (changed A B).map (fun j => (j.servicerFrom, j.servicerTo)) ∧
      row.servicerFrom = k.1 ∧ row.servicerTo = k.2 ∧
      row.nLoans = ((changed A B).filter
        (fun j => decide ((j.servicerFrom, j.servicerTo) = k))).length ∧
      row.totalUpbFrom = sumOpt (((changed A B).filter
        (fun j => decide ((j.servicerFrom, j.servicerTo) = k))).map JRow.upbFrom) ∧
      row.totalUpb = sumOpt (((changed A B).filter
        (fun j => decide ((j.servicerFrom, j.servicerTo) = k))).map JRow.upbTo) ∧
      row.sellerTotal = lookupKey k.1 (servicerTotals A) ∧
      row.buyerTotal = lookupKey k.2 (servicerTotals B) ∧
      row.fracSellerN = divOpt (row.nLoans : ℚ) (row.sellerTotal.map (fun p => (p.1 : ℚ))) ∧
      row.fracSellerUpb = divOpt row.totalUpbFrom (row.sellerTotal.map Prod.snd) ∧
      row.fracBuyerN = divOpt (row.nLoans : ℚ) (row.buyerTotal.map (fun p => (p.1 : ℚ))) ∧
      row.fracBuyerUpb = divOpt row.totalUpb (row.buyerTotal.map Prod.snd) := by
  simp only [fhlmcStepFull, keysOf] at hr
  obtain ⟨k, hk, rfl⟩ := List.mem_map.mp hr
  exact ⟨k, List.mem_dedup.mp hk, rfl, rfl, rfl, rfl, rfl, rfl, rfl, rfl, rfl, rfl, rfl⟩

lemma lookupKey_servicerTotals_of_mem {X : List FRow} {s : String} {x : FRow}
    (hx : x ∈ X) (hs : x.servicer = s) :
    lookupKey s (servicerTotals X)
      = some ((X.filter (fun r => decide (r.servicer = s))).length,
              sumOpt ((X.filter (fun r => decide (r.servicer = s))).map FRow.upb))
      ∧ 0 < (X.filter (fun r => decide (r.servicer = s))).length := by
  constructor
  · unfold servicerTotals
    rw [lookupKey_groupStats, if_pos (List.mem_map.mpr ⟨x, hx, hs⟩)]
  · have hmem : x ∈ X.filter (fun r => decide (r.servicer = s)) :=
      List.mem_filter.mpr ⟨hx, by simp [hs]⟩
    exact List.length_pos.mpr (List.ne_nil_of_mem hmem)

lemma divOpt_some_isSome (x d : ℚ) (hd : d ≠ 0) : (divOpt x (some d)).isSome := by
  simp [divOpt, hd]

/-! ## C9 — count denominators always matched and positive -/

/-- C9: in the differencing reconciler every emitted aggregate row's left
joins against the seller and buyer totals find a matching row, the matched
count denominators are at least 1, and the count fractions are therefore
defined (non-missing) in every output row. -/
theorem C9_count_fractions_defined (A B : List FRow) (m : Nat) (row : FAggFull)
    (hr : row ∈ fhlmcStepFull A B m) :
    row.sellerTotal.isSome ∧ row.buyerTotal.isSome ∧
    row.fracSellerN.isSome ∧ row.fracBuyerN.isSome := by
  obtain ⟨k, hk, _, _, _, _, _, hst, hbt, hfsn, _, hfbn, _⟩ := fhlmcStepFull_fields hr
  obtain ⟨j, hj, hjk⟩ := List.mem_map.mp hk
  obtain ⟨a, ha, b, hb, hid, hne, rfl⟩ := mem_changed.mp hj
  have hk1 : a.servicer = k.1 := congrArg Prod.fst hjk
  have hk2 : b.servicer = k.2 := congrArg Prod.snd hjk
  obtain ⟨hsval, hspos⟩ := lookupKey_servicerTotals_of_mem ha hk1
  obtain ⟨hbval, hbpos⟩ := lookupKey_servicerTotals_of_mem hb hk2
  refine ⟨?_, ?_, ?_, ?_⟩
  · rw [hst, hsval]
    rfl
  · rw [hbt, hbval]
    rfl
  · rw [hfsn, hst, hsval, Option.map_some']
    exact divOpt_some_isSome _ _
      (Nat.cast_ne_zero.mpr (Nat.pos_iff_ne_zero.mp hspos))
  · rw [hfbn, hbt, hbval, Option.map_some']
    exact divOpt_some_isSome _ _
      (Nat.cast_ne_zero.mpr (Nat.pos_iff_ne_zero.mp hbpos))

/-- Witness for C9 at the concrete one-loan step from `fdfA` to `fdfB`. -/
theorem C9_count_fractions_witness :
    c9row ∈ fhlmcStepFull fdfA fdfB 202002 ∧
    (c9row.sellerTotal.isSome ∧ c9row.buyerTotal.isSome ∧
     c9row.fracSellerN.isSome ∧ c9row.fracBuyerN.isSome) :=
  have hm : c9row ∈ fhlmcStepFull fdfA fdfB 202002 := by
    have he : fhlmcStepFull fdfA fdfB 202002 = [c9row] := by with_unfolding_all rfl
    rw [he]
    exact List.mem_cons_self _ _
  ⟨hm, C9_count_fractions_defined fdfA fdfB 202002 c9row hm⟩

/-! ## C1 — differencing reconciler semantics -/

lemma find?_loanId_of_nodup {X : List FRow} {x : FRow}
    (hX : (X.map FRow.loanId).Nodup) (hx : x ∈ X) :
    X.find? (fun r => decide (r.loanId = x.loanId)) = some x := by
  induction X with
  | nil => simp at hx
  | cons y ys ih =>
      rw [List.map_cons, List.nodup_cons] at hX
      rcases List.mem_cons.mp hx with rfl | hmem
      · rw [List.find?_cons_of_pos _ (by simp)]
      · have hne : y.loanId ≠ x.loanId := by
          intro he
          exact hX.1 (he ▸ List.mem_map.mpr ⟨x, hmem, rfl⟩)
        rw [List.find?_cons_of_neg _ (by simp [hne]), ih hX.2 hmem]

lemma nodup_of_length_le_one {α : Type} {l : List α} (h : l.length ≤ 1) :
    l.Nodup := by
  match l with
  | [] => exact List.nodup_nil
  | [x] => exact List.nodup_singleton x
  | x :: y :: t => simp at h

lemma count_matching_le_one {B : List FRow}
    (hB : (B.map FRow.loanId).Nodup) (i : String) :
    (B.filter (fun b => decide (b.loanId = i))).length ≤ 1 := by
  rw [← List.countP_eq_length_filter]
  have h1 : List.countP (fun b => decide (b.loanId = i)) B
      = List.count i (B.map FRow.loanId) := by
    rw [List.count, List.countP_map]
    apply List.countP_congr
    intro b _
    by_cases h : b.loanId = i <;> simp [h]
  rw [h1]
  exact List.nodup_iff_count_le_one.mp hB i

lemma innerJoin_ids_nodup {A B : List FRow}
    (hA : (A.map FRow.loanId).Nodup) (hB : (B.map FRow.loanId).Nodup) :
    ((innerJoin A B).map JRow.loanId).Nodup := by
  unfold innerJoin
  rw [List.map_flatMap, List.nodup_flatMap]
  constructor
  · intro a _
    apply nodup_of_length_le_one
    calc (((B.filter (fun b => decide (b.loanId = a.loanId))).map
            (fun b => (⟨a.loanId, a.servicer, a.upb, b.servicer, b.upb⟩ : JRow))).map
            JRow.loanId).length
        = (B.filter (fun b => decide (b.loanId = a.loanId))).length := by
          simp
      _ ≤ 1 := count_matching_le_one hB a.loanId
  · have hpw : List.Pairwise (fun a₁ a₂ : FRow => a₁.loanId ≠ a₂.loanId) A :=
      List.pairwise_map.mp hA
    refine hpw.imp ?_
    intro a₁ a₂ hne
    intro x hx₁ hx₂
    have e₁ : x = a₁.loanId := by
      simp only [List.mem_map] at hx₁
      obtain ⟨j, hj, rfl⟩ := hx₁
      obtain ⟨b, _, rfl⟩ := hj
      rfl
    have e₂ : x = a₂.loanId := by
      simp only [List.mem_map] at hx₂
      obtain ⟨j, hj, rfl⟩ := hx₂
      obtain ⟨b, _, rfl⟩ := hj
      rfl
    exact hne (e₁.symm.trans e₂ : a₁.loanId = a₂.loanId)

lemma changed_ids_nodup {A B : List FRow}
    (hA : (A.map FRow.loanId).Nodup) (hB : (B.map FRow.loanId).Nodup) :
    ((changed A B).map JRow.loanId).Nodup :=
  ((List.filter_sublist _).map JRow.loanId).nodup (innerJoin_ids_nodup hA hB)

/-- C1: with loan identifiers unique within each snapshot (the stated
precondition), the loan-level transition records of one differencing step
are exactly the loans present in both months whose servicer identity
differs between the months — one record per such loan, and none for a loan
present in only one month. -/
theorem C1_differencing_transitions (A B : List FRow)
    (hA : (A.map FRow.loanId).Nodup) (hB : (B.map FRow.loanId).Nodup)
    (l : String) :
    ((l ∈ (changed A B).map JRow.loanId) ↔
      ((∃ a ∈ A, a.loanId = l) ∧ (∃ b ∈ B, b.loanId = l) ∧
       (A.find? (fun r => decide (r.loanId = l))).map FRow.servicer ≠
         (B.find? (fun r => decide (r.loanId = l))).map FRow.servicer)) ∧
    ((changed A B).map JRow.loanId).Nodup := by
  refine ⟨⟨?_, ?_⟩, changed_ids_nodup hA hB⟩
  · intro hmem
    obtain ⟨j, hj, hjl⟩ := List.mem_map.mp hmem
    obtain ⟨a, ha, b, hb, hid, hne, rfl⟩ := mem_changed.mp hj
    have hal : a.loanId = l := hjl
    have hbl : b.loanId = l := hid.trans hal
    refine ⟨⟨a, ha, hal⟩, ⟨b, hb, hbl⟩, ?_⟩
    rw [← hal, find?_loanId_of_nodup hA ha,
        show (fun r : FRow => decide (r.loanId = a.loanId))
          = fun r : FRow => decide (r.loanId = b.loanId) by rw [hid],
        find?_loanId_of_nodup hB hb]
    simpa using hne
  · rintro ⟨⟨a, ha, hal⟩, ⟨b, hb, hbl⟩, hneq⟩
    rw [← hal, find?_loanId_of_nodup hA ha,
        show (fun r : FRow => decide (r.loanId = a.loanId))
          = fun r : FRow => decide (r.loanId = b.loanId) by
            rw [hbl.trans hal.symm],
        find?_loanId_of_nodup hB hb] at hneq
    have hne : a.servicer ≠ b.servicer := by simpa using hneq
    refine List.mem_map.mpr ?_
    exact ⟨⟨a.loanId, a.servicer, a.upb, b.servicer, b.upb⟩,
      mem_changed.mpr ⟨a, ha, b, hb, hbl.trans hal.symm, hne, rfl⟩, hal⟩

/-- Witness for C1 at the concrete months `fdfA`, `fdfB` and loan "L1". -/
theorem C1_differencing_transitions_witness :
    (((("L1" : String) ∈ (changed fdfA fdfB).map JRow.loanId) ↔
      ((∃ a ∈ fdfA, a.loanId = "L1") ∧ (∃ b ∈ fdfB, b.loanId = "L1") ∧
       (fdfA.find? (fun r => decide (r.loanId = "L1"))).map FRow.servicer ≠
         (fdfB.find? (fun r => decide (r.loanId = "L1"))).map FRow.servicer)) ∧
    ((changed fdfA fdfB).map JRow.loanId).Nodup) :=
  C1_differencing_transitions fdfA fdfB (by decide) (by decide) "L1"

/-! ## C8 — output sort invariant -/

lemma sortLE_trans {α : Type} (km kn : α → Nat) (a b c : α)
    (hab : sortLE km kn a b = true) (hbc : sortLE km kn b c = true) :
    sortLE km kn a c = true := by
  simp only [sortLE, Bool.or_eq_true, Bool.and_eq_true, decide_eq_true_eq] at *
  omega

lemma sortLE_total {α : Type} (km kn : α → Nat) (a b : α) :
    (sortLE km kn a b || sortLE km kn b a) = true := by
  simp only [sortLE, Bool.or_eq_true, Bool.and_eq_true, decide_eq_true_eq]
  omega

lemma sortLE_imp_sortOrd {α : Type} {km kn : α → Nat} {a b : α}
    (h : sortLE km kn a b = true) : SortOrd km kn a b := by
  simp only [sortLE, Bool.or_eq_true, Bool.and_eq_true, decide_eq_true_eq] at h
  unfold SortOrd
  omega

/-- C8: every final output collection of either reconciler is sorted with
rows non-decreasing in period token, and within rows of equal period,
non-increasing in loan count. -/
theorem C8_output_sort_invariant :
    (∀ (inputs : List (Nat × Option (List FRow))) (out : List FAgg),
       fhlmcRun inputs = Except.ok out →
       out.Pairwise (SortOrd FAgg.month FAgg.nLoans)) ∧
    (∀ (nameMap : List (String × String)) (inputs : List (Nat × List GRow))
       (out : List GAgg), gnmaRunRel nameMap inputs out →
       out.Pairwise (SortOrd GAgg.month GAgg.nLoans)) := by
  constructor
  · intro inputs out h
    unfold fhlmcRun at h
    by_cases he : inputs.isEmpty
    · rw [if_pos he] at h
      cases h
    · rw [if_neg he] at h
      cases hseq : seqFrames inputs with
      | none =>
          rw [hseq] at h
          cases h
      | some ms =>
          rw [hseq] at h
          injection h with h
          rw [← h]
          unfold sortCombinedF
          exact (List.sorted_mergeSort (sortLE_trans FAgg.month FAgg.nLoans)
            (sortLE_total FAgg.month FAgg.nLoans) _).imp sortLE_imp_sortOrd
  · intro nameMap inputs out h
    obtain ⟨chosen, _, _, hp⟩ := h
    exact hp

/-- Witness for C8: the concrete run over `c7inputs` and an empty GNMA
run. -/
theorem C8_output_sort_invariant_witness :
    (fhlmcRun c7inputs = Except.ok [c7row] ∧
     ([c7row] : List FAgg).Pairwise (SortOrd FAgg.month FAgg.nLoans)) ∧
    (gnmaRunRel [] [] [] ∧
     ([] : List GAgg).Pairwise (SortOrd GAgg.month GAgg.nLoans)) :=
  have h1 : fhlmcRun c7inputs = Except.ok [c7row] := by with_unfolding_all rfl
  have h2 : gnmaRunRel [] [] [] :=
    ⟨[], List.Forall₂.nil, List.Perm.refl _, List.Pairwise.nil⟩
  ⟨⟨h1, C8_output_sort_invariant.1 c7inputs [c7row] h1⟩,
   ⟨h2, C8_output_sort_invariant.2 [] [] [] h2⟩⟩

/-! ## C4 — deduplication of a month's physical sources -/

/-- C4 counterexample: `unique(subset=[Pool ID, loan_seq])` is called with
polars' default `keep="any"`, which gives no precedence guarantee.  On the
two-row month `gPair` (second row from the later source), keeping only the
earlier source's row `gRow1` is an admissible outcome of the
deduplication, so the claim that the later source's row always wins on a
duplicate key is false. -/
theorem C4_dedup_later_wins_cex :
    dedupRel gPair [gRow1] ∧ dedupKey gRow1 = dedupKey gRow2 ∧
    gRow1 ≠ gRow2 ∧
    ¬ (∀ out : List GRow, dedupRel gPair out → gRow2 ∈ out) := by
  have hrel : dedupRel gPair [gRow1] :=
    ⟨((List.nil_sublist [gRow2]).cons₂ gRow1).subperm, by decide, by decide⟩
  refine ⟨hrel, by decide, by decide, ?_⟩
  intro h
  exact absurd (h [gRow1] hrel) (by decide)

/-- C4 amended: merging the physical sources of one period yields exactly
one row per (pool identifier, loan sequence) key, each kept row drawn from
the input rows carrying that key; which of several duplicates survives is
unspecified (polars `unique` with its default `keep="any"`), so no source
precedence is guaranteed. -/
theorem C4_dedup_one_row_per_key (inp out : List GRow) (h : dedupRel inp out) :
    (∀ r ∈ out, r ∈ inp) ∧
    (∀ k ∈ inp.map dedupKey, ∃! r, r ∈ out ∧ dedupKey r = k) := by
  obtain ⟨hsub, hnd, hcov⟩ := h
  refine ⟨fun r hr => hsub.subset hr, ?_⟩
  intro k hk
  obtain ⟨r₀, hr₀, hr₀k⟩ := List.mem_map.mp hk
  obtain ⟨r₁, hr₁, hr₁k⟩ := List.mem_map.mp (hcov r₀ hr₀)
  refine ⟨r₁, ⟨hr₁, hr₁k.trans hr₀k⟩, ?_⟩
  rintro r₂ ⟨hr₂, hr₂k⟩
  exact List.inj_on_of_nodup_map hnd hr₂ hr₁ (hr₂k.trans (hr₁k.trans hr₀k).symm)

/-- Witness for C4's amended theorem at the concrete month `gPair`. -/
theorem C4_dedup_one_row_per_key_witness :
    dedupRel gPair [gRow1] ∧
    ((∀ r ∈ [gRow1], r ∈ gPair) ∧
     (∀ k ∈ gPair.map dedupKey, ∃! r, r ∈ [gRow1] ∧ dedupKey r = k)) :=
  have hrel : dedupRel gPair [gRow1] :=
    ⟨((List.nil_sublist [gRow2]).cons₂ gRow1).subperm, by decide, by decide⟩
  ⟨hrel, C4_dedup_one_row_per_key gPair [gRow1] hrel⟩

/-! ## Monotonicity lemmas for the fraction bounds -/

lemma filter_eq_filter_filter_of_imp {α : Type} (l : List α) (p q : α → Bool)
    (h : ∀ x ∈ l, p x = true → q x = true) :
    l.filter p = (l.filter q).filter p := by
  rw [List.filter_filter]
  apply List.filter_congr
  intro x hx
  cases hpx : p x with
  | false => simp
  | true => simp [h x hx hpx]

lemma length_filter_le_of_imp {α : Type} (l : List α) (p q : α → Bool)
    (h : ∀ x ∈ l, p x = true → q x = true) :
    (l.filter p).length ≤ (l.filter q).length := by
  rw [filter_eq_filter_filter_of_imp l p q h]
  exact (List.filter_sublist _).length_le

lemma sumOpt_filter_le_of_imp {α : Type} (l : List α) (v : α → Option ℚ)
    (p q : α → Bool) (h : ∀ x ∈ l, p x = true → q x = true)
    (h0 : ∀ x ∈ l, 0 ≤ (v x).getD 0) :
    sumOpt ((l.filter p).map v) ≤ sumOpt ((l.filter q).map v) := by
  rw [filter_eq_filter_filter_of_imp l p q h]
  apply sumOpt_le_of_sublist (((List.filter_sublist _).map v))
  intro x hx
  obtain ⟨y, hy, rfl⟩ := List.mem_map.mp hx
  exact h0 y ((List.filter_sublist _).subset hy)

lemma subperm_map {α β : Type} (f : α → β) {l₁ l₂ : List α}
    (h : l₁.Subperm l₂) : (l₁.map f).Subperm (l₂.map f) := by
  obtain ⟨t, hp, hs⟩ := h
  exact ⟨t.map f, hp.map f, hs.map f⟩

lemma subperm_count_sum_bounds {l₁ l₂ : List (String × Option ℚ)}
    (h : l₁.Subperm l₂) (h0 : ∀ x ∈ l₂, 0 ≤ (x.2).getD 0) :
    l₁.length ≤ l₂.length ∧ 0 ≤ sumOpt (l₁.map Prod.snd) ∧
      sumOpt (l₁.map Prod.snd) ≤ sumOpt (l₂.map Prod.snd) := by
  refine ⟨h.length_le, ?_, ?_⟩
  · apply sumOpt_nonneg
    intro x hx
    obtain ⟨p, hp, rfl⟩ := List.mem_map.mp hx
    exact h0 p (h.subset hp)
  · apply sumOpt_le_of_subperm (subperm_map Prod.snd h)
    intro x hx
    obtain ⟨p, hp, rfl⟩ := List.mem_map.mp hx
    exact h0 p hp

lemma fracInv_divOpt {x : ℚ} {d : Option ℚ} (hx : 0 ≤ x)
    (hxd : ∀ v, d = some v → x ≤ v) : FracInv (divOpt x d) d := by
  refine ⟨?_, ?_, ?_⟩
  · intro v hv hvpos
    refine ⟨x / v, ?_, div_nonneg hx hvpos.le, (div_le_one hvpos).mpr (hxd v hv)⟩
    rw [hv]
    simp only [divOpt]
    rw [if_neg (ne_of_gt hvpos)]
  · rintro rfl
    rfl
  · intro hd
    rw [hd]
    simp [divOpt]

/-! ## Bounding each changed group by the period totals -/

lemma changed_group_ids_nodup {A B : List FRow}
    (hA : (A.map FRow.loanId).Nodup) (hB : (B.map FRow.loanId).Nodup)
    (p : JRow → Bool) :
    (((changed A B).filter p).map JRow.loanId).Nodup :=
  ((List.filter_sublist (changed A B)).map JRow.loanId).nodup
    (changed_ids_nodup hA hB)

lemma changed_group_seller_subperm (A B : List FRow)
    (hA : (A.map FRow.loanId).Nodup) (hB : (B.map FRow.loanId).Nodup)
    (k : String × String) :
    ((((changed A B).filter
        (fun j => decide ((j.servicerFrom, j.servicerTo) = k))).map
          (fun j => (j.loanId, j.upbFrom))).Subperm
      ((A.filter (fun r => decide (r.servicer = k.1))).map
          (fun a => (a.loanId, a.upb)))) := by
  apply List.Nodup.subperm
  · apply List.Nodup.of_map Prod.fst
    rw [List.map_map]
    exact changed_group_ids_nodup hA hB _
  · intro x hx
    obtain ⟨j, hj, rfl⟩ := List.mem_map.mp hx
    obtain ⟨hjc, hjk⟩ := List.mem_filter.mp hj
    obtain ⟨a, ha, b, hb, hid, hne, rfl⟩ := mem_changed.mp hjc
    have hk1 : a.servicer = k.1 := congrArg Prod.fst (of_decide_eq_true hjk)
    exact List.mem_map.mpr ⟨a, List.mem_filter.mpr ⟨ha, by simp [hk1]⟩, rfl⟩

lemma changed_group_buyer_subperm (A B : List FRow)
    (hA : (A.map FRow.loanId).Nodup) (hB : (B.map FRow.loanId).Nodup)
    (k : String × String) :
    ((((changed A B).filter
        (fun j => decide ((j.servicerFrom, j.servicerTo) = k))).map
          (fun j => (j.loanId, j.upbTo))).Subperm
      ((B.filter (fun r => decide (r.servicer = k.2))).map
          (fun b => (b.loanId, b.upb)))) := by
  apply List.Nodup.subperm
  · apply List.Nodup.of_map Prod.fst
    rw [List.map_map]
    exact changed_group_ids_nodup hA hB _
  · intro x hx
    obtain ⟨j, hj, rfl⟩ := List.mem_map.mp hx
    obtain ⟨hjc, hjk⟩ := List.mem_filter.mp hj
    obtain ⟨a, ha, b, hb, hid, hne, rfl⟩ := mem_changed.mp hjc
    have hk2 : b.servicer = k.2 := congrArg Prod.snd (of_decide_eq_true hjk)
    refine List.mem_map.mpr ⟨b, List.mem_filter.mpr ⟨hb, by simp [hk2]⟩, ?_⟩
    rw [hid]

lemma gnmaMonthFull_fields {nameMap : List (String × String)} {m : Nat}
    {df : List GRow} {row : GAggFull} (hr : row ∈ gnmaMonthFull nameMap m df) :
    ∃ k, k ∈ (gnmaTransfers df).map (fun r => (sellerOf r, r.issuer)) ∧
      row.sellerId = k.1 ∧ row.issuerId = k.2 ∧
      row.nLoans = ((gnmaTransfers df).filter
        (fun r => decide ((sellerOf r, r.issuer) = k))).length ∧
      row.totalUpb = sumOpt (((gnmaTransfers df).filter
        (fun r => decide ((sellerOf r, r.issuer) = k))).map upbDollars) ∧
      row.buyerTotal = lookupKey k.2 (gnmaServicerTotals df) ∧
      row.sellerTotal = lookupKey k.1 (sellerBook df) ∧
      row.fracSellerN = divOpt (row.nLoans : ℚ)
        (row.sellerTotal.map (fun p => (p.1 : ℚ))) ∧
      row.fracSellerUpb = divOpt row.totalUpb (row.sellerTotal.map Prod.snd) ∧
      row.fracBuyerN = divOpt (row.nLoans : ℚ)
        (row.buyerTotal.map (fun p => (p.1 : ℚ))) ∧
      row.fracBuyerUpb = divOpt row.totalUpb (row.buyerTotal.map Prod.snd) := by
  simp only [gnmaMonthFull, keysOf] at hr
  obtain ⟨k, hk, rfl⟩ := List.mem_map.mp hr
  exact ⟨k, List.mem_dedup.mp hk, rfl, rfl, rfl, rfl, rfl, rfl, rfl, rfl, rfl, rfl⟩

lemma fhlmc_total_char {X : List FRow} {k1 : String} {p : Nat × ℚ}
    (h : lookupKey k1 (servicerTotals X) = some p) :
    p = ((X.filter (fun r => decide (r.servicer = k1))).length,
         sumOpt ((X.filter (fun r => decide (r.servicer = k1))).map FRow.upb)) := by
  unfold servicerTotals at h
  rw [lookupKey_groupStats] at h
  by_cases hmem : k1 ∈ X.map FRow.servicer
  · rw [if_pos hmem] at h
    exact (Option.some_inj.mp h).symm
  · rw [if_neg hmem] at h
    cases h

lemma gnma_buyer_total_char {df : List GRow} {k2 : String} {p : Nat × ℚ}
    (h : lookupKey k2 (gnmaServicerTotals df) = some p) :
    p = ((df.filter (fun r => decide (r.issuer = k2))).length,
         sumOpt ((df.filter (fun r => decide (r.issuer = k2))).map upbDollars)) := by
  unfold gnmaServicerTotals at h
  rw [lookupKey_groupStats] at h
  by_cases hmem : k2 ∈ df.map GRow.issuer
  · rw [if_pos hmem] at h
    exact (Option.some_inj.mp h).symm
  · rw [if_neg hmem] at h
    cases h

lemma gnma_seller_total_char {df : List GRow} {k1 : String} {p : Nat × ℚ}
    (h : lookupKey k1 (sellerBook df) = some p) :
    p = (((gnmaTransfers df).filter (fun r => decide (sellerOf r = k1))).length
           + (df.filter (fun r => decide (r.issuer = k1))).length,
         sumOpt (((gnmaTransfers df).filter
             (fun r => decide (sellerOf r = k1))).map upbDollars)
           + sumOpt ((df.filter (fun r => decide (r.issuer = k1))).map upbDollars)) := by
  rw [lookupKey_sellerBook] at h
  by_cases hmem : k1 ∈ (gnmaTransfers df).map sellerOf
  · rw [if_pos hmem] at h
    exact (Option.some_inj.mp h).symm
  · rw [if_neg hmem] at h
    cases h

lemma fracInv_field {num : ℚ} {tot : Option (Nat × ℚ)} (sel : Nat × ℚ → ℚ)
    (hnum : 0 ≤ num) (hb : ∀ p, tot = some p → num ≤ sel p) :
    FracInv (divOpt num (tot.map sel)) (tot.map sel) := by
  apply fracInv_divOpt hnum
  intro v hv
  cases htot : tot with
  | none =>
      rw [htot] at hv
      cases hv
  | some p =>
      rw [htot, Option.map_some'] at hv
      injection hv with hv
      rw [← hv]
      exact hb p htot

/-! ## C3 — normalization fraction invariant -/

/-- C3: in every aggregate row of either reconciler, each of the four
fractions is within [0, 1] whenever its denominator is defined and
positive, and is left missing (not zero, and with no error) whenever its
denominator is missing or zero.  Hypotheses: snapshot loan identifiers are
unique (the stated precondition for the differencing join) and unpaid
balances are non-negative. -/
theorem C3_normalization_fractions (A B : List FRow) (m : Nat)
    (nameMap : List (String × String)) (df : List GRow)
    (hA : (A.map FRow.loanId).Nodup) (hB : (B.map FRow.loanId).Nodup)
    (h0A : ∀ r ∈ A, 0 ≤ r.upb.getD 0) (h0B : ∀ r ∈ B, 0 ≤ r.upb.getD 0)
    (h0G : ∀ r ∈ df, 0 ≤ (upbDollars r).getD 0) :
    (∀ row ∈ fhlmcStepFull A B m,
       FracInv row.fracSellerN (row.sellerTotal.map (fun p => (p.1 : ℚ))) ∧
       FracInv row.fracSellerUpb (row.sellerTotal.map Prod.snd) ∧
       FracInv row.fracBuyerN (row.buyerTotal.map (fun p => (p.1 : ℚ))) ∧
       FracInv row.fracBuyerUpb (row.buyerTotal.map Prod.snd)) ∧
    (∀ row ∈ gnmaMonthFull nameMap m df,
       FracInv row.fracSellerN (row.sellerTotal.map (fun p => (p.1 : ℚ))) ∧
       FracInv row.fracSellerUpb (row.sellerTotal.map Prod.snd) ∧
       FracInv row.fracBuyerN (row.buyerTotal.map (fun p => (p.1 : ℚ))) ∧
       FracInv row.fracBuyerUpb (row.buyerTotal.map Prod.snd)) := by
  constructor
  · intro row hr
    obtain ⟨k, hk, _, _, hn, hupbF, hupbT, hst, hbt, hfsn, hfsu, hfbn, hfbu⟩ :=
      fhlmcStepFull_fields hr
    obtain ⟨hslen, hsnn, hssum⟩ :=
      subperm_count_sum_bounds (changed_group_seller_subperm A B hA hB k)
        (fun x hx => by
          obtain ⟨a, ha, rfl⟩ := List.mem_map.mp hx
          exact h0A a ((List.filter_sublist A).subset ha))
    obtain ⟨hblen, hbnn, hbsum⟩ :=
      subperm_count_sum_bounds (changed_group_buyer_subperm A B hA hB k)
        (fun x hx => by
          obtain ⟨b, hb, rfl⟩ := List.mem_map.mp hx
          exact h0B b ((List.filter_sublist B).subset hb))
    simp only [List.length_map, List.map_map] at hslen hsnn hssum hblen hbnn hbsum
    refine ⟨?_, ?_, ?_, ?_⟩
    · rw [hfsn, hst]
      refine fracInv_field _ (by positivity) ?_
      intro p hp
      rw [fhlmc_total_char hp, hn]
      exact_mod_cast hslen
    · rw [hfsu, hst]
      refine fracInv_field _ (by rw [hupbF]; exact hsnn) ?_
      intro p hp
      rw [fhlmc_total_char hp, hupbF]
      exact hssum
    · rw [hfbn, hbt]
      refine fracInv_field _ (by positivity) ?_
      intro p hp
      rw [fhlmc_total_char hp, hn]
      exact_mod_cast hblen
    · rw [hfbu, hbt]
      refine fracInv_field _ (by rw [hupbT]; exact hbnn) ?_
      intro p hp
      rw [fhlmc_total_char hp, hupbT]
      exact hbsum
  · intro row hr
    obtain ⟨k, hk, _, _, hn, hupb, hbt, hst, hfsn, hfsu, hfbn, hfbu⟩ :=
      gnmaMonthFull_fields hr
    have h0tr : ∀ r ∈ gnmaTransfers df, 0 ≤ (upbDollars r).getD 0 :=
      fun r hr' => h0G r ((List.filter_sublist df).subset hr')
    have himp1 : ∀ x ∈ gnmaTransfers df,
        decide ((sellerOf x, x.issuer) = k) = true →
        decide (sellerOf x = k.1) = true := by
      intro x _ hx
      exact decide_eq_true (congrArg Prod.fst (of_decide_eq_true hx))
    have hcount1 := length_filter_le_of_imp (gnmaTransfers df) _ _ himp1
    have hsum1 := sumOpt_filter_le_of_imp (gnmaTransfers df) upbDollars _ _ himp1 h0tr
    have hrows_eq : (gnmaTransfers df).filter
        (fun r => decide ((sellerOf r, r.issuer) = k))
        = df.filter (fun r =>
            decide ((sellerOf r, r.issuer) = k) && isTransfer r) :=
      List.filter_filter _ _
    have himp2 : ∀ x ∈ df,
        (decide ((sellerOf x, x.issuer) = k) && isTransfer x) = true →
        decide (x.issuer = k.2) = true := by
      intro x _ hx
      rw [Bool.and_eq_true] at hx
      exact decide_eq_true (congrArg Prod.snd (of_decide_eq_true hx.1))
    have hcount2 := length_filter_le_of_imp df _ _ himp2
    have hsum2 := sumOpt_filter_le_of_imp df upbDollars _ _ himp2 h0G
    have hnn : 0 ≤ sumOpt (((gnmaTransfers df).filter
        (fun r => decide ((sellerOf r, r.issuer) = k))).map upbDollars) := by
      apply sumOpt_nonneg
      intro x hx
      obtain ⟨r, hr', rfl⟩ := List.mem_map.mp hx
      exact h0tr r ((List.filter_sublist _).subset hr')
    refine ⟨?_, ?_, ?_, ?_⟩
    · rw [hfsn, hst]
      refine fracInv_field _ (by positivity) ?_
      intro p hp
      rw [gnma_seller_total_char hp, hn]
      exact_mod_cast Nat.le_trans hcount1 (Nat.le_add_right _ _)
    · rw [hfsu, hst]
      refine fracInv_field _ (by rw [hupb]; exact hnn) ?_
      intro p hp
      rw [gnma_seller_total_char hp, hupb]
      have h2nn : 0 ≤ sumOpt ((df.filter
          (fun r => decide (r.issuer = k.1))).map upbDollars) := by
        apply sumOpt_nonneg
        intro x hx
        obtain ⟨r, hr', rfl⟩ := List.mem_map.mp hx
        exact h0G r ((List.filter_sublist _).subset hr')
      calc sumOpt (((gnmaTransfers df).filter
              (fun r => decide ((sellerOf r, r.issuer) = k))).map upbDollars)
          ≤ sumOpt (((gnmaTransfers df).filter
              (fun r => decide (sellerOf r = k.1))).map upbDollars) := hsum1
        _ ≤ _ := le_add_of_nonneg_right h2nn
    · rw [hfbn, hbt]
      refine fracInv_field _ (by positivity) ?_
      intro p hp
      rw [gnma_buyer_total_char hp, hn, hrows_eq]
      exact_mod_cast hcount2
    · rw [hfbu, hbt]
      refine fracInv_field _ (by rw [hupb]; exact hnn) ?_
      intro p hp
      rw [gnma_buyer_total_char hp, hupb, hrows_eq]
      exact hsum2

/-- Witness for C3 at the concrete months `fdfA`, `fdfB` and the GNMA
month `gdfW`, whose identifier-uniqueness and balance-nonnegativity
hypotheses hold. -/
theorem C3_normalization_fractions_witness :
    (∀ row ∈ fhlmcStepFull fdfA fdfB 202002,
       FracInv row.fracSellerN (row.sellerTotal.map (fun p => (p.1 : ℚ))) ∧
       FracInv row.fracSellerUpb (row.sellerTotal.map Prod.snd) ∧
       FracInv row.fracBuyerN (row.buyerTotal.map (fun p => (p.1 : ℚ))) ∧
       FracInv row.fracBuyerUpb (row.buyerTotal.map Prod.snd)) ∧
    (∀ row ∈ gnmaMonthFull [] 202002 gdfW,
       FracInv row.fracSellerN (row.sellerTotal.map (fun p => (p.1 : ℚ))) ∧
       FracInv row.fracSellerUpb (row.sellerTotal.map Prod.snd) ∧
       FracInv row.fracBuyerN (row.buyerTotal.map (fun p => (p.1 : ℚ))) ∧
       FracInv row.fracBuyerUpb (row.buyerTotal.map Prod.snd)) :=
  C3_normalization_fractions fdfA fdfB 202002 [] gdfW (by decide) (by decide)
    (by
      intro r hr
      have h1 : r = (⟨"L1", "S1", some 5⟩ : FRow) := by simpa [fdfA] using hr
      subst h1
      norm_num)
    (by
      intro r hr
      have h1 : r = (⟨"L1", "S2", some 4⟩ : FRow) := by simpa [fdfB] using hr
      subst h1
      norm_num)
    (by
      intro r hr
      have h1 : r = (⟨"P", "L", "A", some "X", "100"⟩ : GRow) := by
        simpa [gdfW] using hr
      subst h1
      have h2 : upbDollars (⟨"P", "L", "A", some "X", "100"⟩ : GRow) = some 1 := by
        with_unfolding_all rfl
      rw [h2]
      norm_num)

/-! ## C6 — determinism of the full run -/

lemma dedupRel_perm_of_nodup {inp out : List GRow} (h : dedupRel inp out)
    (hnd : (inp.map dedupKey).Nodup) : out.Perm inp := by
  obtain ⟨hsub, _, hcov⟩ := h
  apply hsub.perm_of_length_le
  have hsubset : (inp.map dedupKey) ⊆ (out.map dedupKey) := by
    intro k hk
    obtain ⟨r, hr, rfl⟩ := List.mem_map.mp hk
    exact hcov r hr
  calc inp.length = (inp.map dedupKey).length := (List.length_map _ _).symm
    _ = (inp.map dedupKey).toFinset.card := (List.toFinset_card_of_nodup hnd).symm
    _ ≤ (out.map dedupKey).toFinset.card := Finset.card_le_card
        (fun x hx => List.mem_toFinset.mpr (hsubset (List.mem_toFinset.mp hx)))
    _ ≤ (out.map dedupKey).length := List.toFinset_card_le _
    _ = out.length := List.length_map _ _

lemma lookupKey_groupStats_perm {α κ : Type} [DecidableEq κ] {l₁ l₂ : List α}
    (key : α → κ) (val : α → Option ℚ) (h : l₁.Perm l₂) (k : κ) :
    lookupKey k (groupStats key val l₁) = lookupKey k (groupStats key val l₂) := by
  rw [lookupKey_groupStats, lookupKey_groupStats]
  have hlen : (l₁.filter (fun r => decide (key r = k))).length
      = (l₂.filter (fun r => decide (key r = k))).length := (h.filter _).length_eq
  have hsum : sumOpt ((l₁.filter (fun r => decide (key r = k))).map val)
      = sumOpt ((l₂.filter (fun r => decide (key r = k))).map val) :=
    sumOpt_perm ((h.filter _).map val)
  by_cases hm : k ∈ l₁.map key
  · rw [if_pos hm, if_pos ((h.map key).mem_iff.mp hm), hlen, hsum]
  · rw [if_neg hm, if_neg (fun hc => hm ((h.map key).mem_iff.mpr hc))]

lemma lookupKey_sellerBook_perm {df₁ df₂ : List GRow} (h : df₁.Perm df₂)
    (s : String) :
    lookupKey s (sellerBook df₁) = lookupKey s (sellerBook df₂) := by
  rw [lookupKey_sellerBook, lookupKey_sellerBook]
  have htr : (gnmaTransfers df₁).Perm (gnmaTransfers df₂) := h.filter isTransfer
  have h1 : ((gnmaTransfers df₁).filter (fun r => decide (sellerOf r = s))).length
      = ((gnmaTransfers df₂).filter (fun r => decide (sellerOf r = s))).length :=
    (htr.filter _).length_eq
  have h2 : (df₁.filter (fun r => decide (r.issuer = s))).length
      = (df₂.filter (fun r => decide (r.issuer = s))).length :=
    (h.filter _).length_eq
  have h3 : sumOpt (((gnmaTransfers df₁).filter
        (fun r => decide (sellerOf r = s))).map upbDollars)
      = sumOpt (((gnmaTransfers df₂).filter
        (fun r => decide (sellerOf r = s))).map upbDollars) :=
    sumOpt_perm ((htr.filter _).map upbDollars)
  have h4 : sumOpt ((df₁.filter (fun r => decide (r.issuer = s))).map upbDollars)
      = sumOpt ((df₂.filter (fun r => decide (r.issuer = s))).map upbDollars) :=
    sumOpt_perm ((h.filter _).map upbDollars)
  by_cases hm : s ∈ (gnmaTransfers df₁).map sellerOf
  · rw [if_pos hm, if_pos ((htr.map sellerOf).mem_iff.mp hm), h1, h2, h3, h4]
  · rw [if_neg hm, if_neg (fun hc => hm ((htr.map sellerOf).mem_iff.mpr hc))]

lemma gnmaRowOf_perm_eq (nameMap : List (String × String)) (m : Nat)
    {df₁ df₂ : List GRow} (h : df₁.Perm df₂) (k : String × String) :
    gnmaRowOf nameMap m df₁ k = gnmaRowOf nameMap m df₂ k := by
  unfold gnmaRowOf
  dsimp only
  have htr : (gnmaTransfers df₁).Perm (gnmaTransfers df₂) := h.filter isTransfer
  have hlen : ((gnmaTransfers df₁).filter
        (fun r => decide ((sellerOf r, r.issuer) = k))).length
      = ((gnmaTransfers df₂).filter
        (fun r => decide ((sellerOf r, r.issuer) = k))).length :=
    (htr.filter _).length_eq
  have hsum : sumOpt (((gnmaTransfers df₁).filter
        (fun r => decide ((sellerOf r, r.issuer) = k))).map upbDollars)
      = sumOpt (((gnmaTransfers df₂).filter
        (fun r => decide ((sellerOf r, r.issuer) = k))).map upbDollars) :=
    sumOpt_perm ((htr.filter _).map upbDollars)
  have hb : lookupKey k.2 (gnmaServicerTotals df₁)
      = lookupKey k.2 (gnmaServicerTotals df₂) :=
    lookupKey_groupStats_perm GRow.issuer upbDollars h k.2
  have hs : lookupKey k.1 (sellerBook df₁) = lookupKey k.1 (sellerBook df₂) :=
    lookupKey_sellerBook_perm h k.1
  rw [hlen, hsum, hb, hs]

lemma gnmaMonth_perm (nameMap : List (String × String)) (m : Nat)
    {df₁ df₂ : List GRow} (h : df₁.Perm df₂) :
    (gnmaMonth nameMap m df₁).Perm (gnmaMonth nameMap m df₂) := by
  unfold gnmaMonth gnmaMonthFull
  rw [funext (gnmaRowOf_perm_eq nameMap m h)]
  exact ((((h.filter isTransfer).map _).dedup).map _).map _

lemma flatMap_months_perm {nameMap : List (String × String)}
    {inputs c₁ c₂ : List (Nat × List GRow)}
    (h₁ : List.Forall₂ (fun a b => a.1 = b.1 ∧ dedupRel a.2 b.2) inputs c₁)
    (h₂ : List.Forall₂ (fun a b => a.1 = b.1 ∧ dedupRel a.2 b.2) inputs c₂)
    (hnd : ∀ p ∈ inputs, ((p.2).map dedupKey).Nodup) :
    (c₁.flatMap (fun p => gnmaMonth nameMap p.1 p.2)).Perm
      (c₂.flatMap (fun p => gnmaMonth nameMap p.1 p.2)) := by
  induction inputs generalizing c₁ c₂ with
  | nil =>
      cases h₁
      cases h₂
      exact List.Perm.refl _
  | cons hd tl ih =>
      cases h₁ with
      | cons hhd₁ htl₁ =>
        cases h₂ with
        | cons hhd₂ htl₂ =>
          rename_i b₁ l₁ b₂ l₂
          rw [List.flatMap_cons, List.flatMap_cons]
          apply List.Perm.append
          · obtain ⟨hm₁, hd₁⟩ := hhd₁
            obtain ⟨hm₂, hd₂⟩ := hhd₂
            have hp₁ : (b₁.2).Perm hd.2 :=
              dedupRel_perm_of_nodup hd₁ (hnd hd (List.mem_cons_self _ _))
            have hp₂ : (b₂.2).Perm hd.2 :=
              dedupRel_perm_of_nodup hd₂ (hnd hd (List.mem_cons_self _ _))
            rw [← hm₁, ← hm₂]
            exact gnmaMonth_perm nameMap hd.1 (hp₁.trans hp₂.symm)
          · exact ih htl₁ htl₂ (fun p hp => hnd p (List.mem_cons_of_mem _ hp))

/-- C6 counterexample: on a single-month input whose concatenated sources
hold two rows with the same (Pool ID, loan_seq) key but different payloads
(`gPair`), two valid runs of the pipeline — polars `unique(keep="any")`
may keep either duplicate, and `sort(maintain_order=False)` fixes only the
ordering — produce different sorted outputs, so the output is not a
deterministic function of the input files alone and byte-identical reruns
are not guaranteed. -/
theorem C6_rerun_not_byte_identical_cex :
    gnmaRunRel [] c6inputs [c6rowX] ∧ gnmaRunRel [] c6inputs [c6rowY] ∧
    ([c6rowX] : List GAgg) ≠ [c6rowY] := by
  refine ⟨⟨[(201504, [gRow1])], ?_, ?_, ?_⟩,
          ⟨[(201504, [gRow2])], ?_, ?_, ?_⟩, ?_⟩
  · exact List.Forall₂.cons
      ⟨rfl, ((List.nil_sublist [gRow2]).cons₂ gRow1).subperm, by decide, by decide⟩
      List.Forall₂.nil
  · rw [show ([(201504, [gRow1])] : List (Nat × List GRow)).flatMap
        (fun p => gnmaMonth [] p.1 p.2) = [c6rowX] from by with_unfolding_all rfl]
  · exact List.pairwise_singleton _ _
  · exact List.Forall₂.cons
      ⟨rfl, (List.sublist_cons_self gRow1 [gRow2]).subperm, by decide, by decide⟩
      List.Forall₂.nil
  · rw [show ([(201504, [gRow2])] : List (Nat × List GRow)).flatMap
        (fun p => gnmaMonth [] p.1 p.2) = [c6rowY] from by with_unfolding_all rfl]
  · exact List.pairwise_singleton _ _
  · decide

/-- C6 amended: over unchanged inputs any two valid runs produce outputs
holding exactly the same rows (equal as multisets — one output is a
permutation of the other), provided every period's merged sources have no
duplicate (pool identifier, loan sequence) key; with duplicate keys, or
for the byte order of tied rows, the output is not determined. -/
theorem C6_rerun_same_rows (nameMap : List (String × String))
    (inputs : List (Nat × List GRow)) (out₁ out₂ : List GAgg)
    (hnd : ∀ p ∈ inputs, ((p.2).map dedupKey).Nodup)
    (h₁ : gnmaRunRel nameMap inputs out₁)
    (h₂ : gnmaRunRel nameMap inputs out₂) : out₁.Perm out₂ := by
  obtain ⟨c₁, hf₁, hp₁, _⟩ := h₁
  obtain ⟨c₂, hf₂, hp₂, _⟩ := h₂
  exact hp₁.trans ((flatMap_months_perm hf₁ hf₂ hnd).trans hp₂.symm)

/-- Witness for C6's amended theorem: a one-month input with unique keys
(`gdfW`) and the valid run producing `[c6rowX]`. -/
theorem C6_rerun_same_rows_witness :
    (∀ p ∈ [((201504 : Nat), gdfW)], ((p.2).map dedupKey).Nodup) ∧
    gnmaRunRel [] [(201504, gdfW)] [c6rowX] ∧
    ([c6rowX] : List GAgg).Perm [c6rowX] :=
  have hnd : ∀ p ∈ [((201504 : Nat), gdfW)], ((p.2).map dedupKey).Nodup := by
    decide
  have hrel : gnmaRunRel [] [(201504, gdfW)] [c6rowX] := by
    refine ⟨[(201504, gdfW)], ?_, ?_, ?_⟩
    · exact List.Forall₂.cons
        ⟨rfl, (List.Sublist.refl gdfW).subperm, by decide, by decide⟩
        List.Forall₂.nil
    · rw [show ([(201504, gdfW)] : List (Nat × List GRow)).flatMap
          (fun p => gnmaMonth [] p.1 p.2) = [c6rowX] from by with_unfolding_all rfl]
    · exact List.pairwise_singleton _ _
  ⟨hnd, hrel,
   C6_rerun_same_rows [] [(201504, gdfW)] [c6rowX] [c6rowX] hnd hrel hrel⟩
